import Mathlib
/-!
# Verification of the OpenClaw IRC integration core

Shallow embedding of the account-resolution, addressing, access-control,
delivery-pipeline, monitor and probe logic of the `Rhovasti/openclaw` IRC
integration, together with theorems settling the specification claims.

Strings are modelled as `List Char` (or Lean `String` where only whole-string
equality matters).  JavaScript numerics on these paths are small non-negative
indices, modelled as `Nat`, with `Int` used where JS `lastIndexOf` can return
`-1`.
-/
set_option maxRecDepth 100000
namespace OpenClaw
/-- The JS whitespace characters relevant to `trim`/`trimStart`/`trimEnd`
on the ASCII texts handled here. -/
def isJsWhitespace (c : Char) : Bool :=
  c = ' ' || c = '\t' || c = '\n' || c = '\r' || c = '\x0b' || c = '\x0c'
/-- JS `String.prototype.trimStart`. -/
def trimStartL (l : List Char) : List Char := l.dropWhile isJsWhitespace
/-- JS `String.prototype.trimEnd`. -/
def trimEndL (l : List Char) : List Char := (l.reverse.dropWhile isJsWhitespace).reverse
/-- JS `String.prototype.trim`. -/
def trimL (l : List Char) : List Char := trimStartL (trimEndL l)
/-- JS `String.prototype.toLowerCase`, on the ASCII range (the only range the
claims exercise): uppercase ASCII letters map to lowercase, all else fixed. -/
def jsToLowerChar (c : Char) : Char :=
  if 'A' ≤ c ∧ c ≤ 'Z' then Char.ofNat (c.toNat + 32) else c
/-- Lowercase a modelled string. -/
def lowerL (l : List Char) : List Char := l.map jsToLowerChar
/-- Greatest index of `c` in `l` (`none` when absent). -/
def lastIndexOfAux (l : List Char) (c : Char) : Option Nat :=
  match l with
  | [] => none
  | x :: xs =>
    match lastIndexOfAux xs c with
    | some j => some (j + 1)
    | none => if x = c then some 0 else none
/-- JS `String.prototype.lastIndexOf(c, pos)`: the greatest index `i ≤ pos`
with `l[i] = c`, as an `Int`, `-1` when there is none. -/
def jsLastIndexOf (l : List Char) (c : Char) (pos : Nat) : Int :=
  match lastIndexOfAux (l.take (pos + 1)) c with
  | some i => (i : Int)
  | none => -1
/-- The delivery pipeline's byte budget (`MAX_LENGTH` in `sendMessageIrc`). -/
def MAX_LENGTH : Nat := 400
/-- The split-point search of `sendMessageIrc`: newline in the last 100 bytes
of the window, else space in the last 50, else the nearest of `. , ; ! ?` in
the last 50, else a hard cut exactly at the budget. -/
def splitIndexOf (remaining : List Char) : Nat :=
  let ln := jsLastIndexOf remaining '\n' MAX_LENGTH
  if (MAX_LENGTH : Int) - 100 < ln then (ln + 1).toNat
  else
    let ls := jsLastIndexOf remaining ' ' MAX_LENGTH
    if (MAX_LENGTH : Int) - 50 < ls then (ls + 1).toNat
    else
      let lp := max (max (max (max
        (jsLastIndexOf remaining '.' MAX_LENGTH)
        (jsLastIndexOf remaining ',' MAX_LENGTH))
        (jsLastIndexOf remaining ';' MAX_LENGTH))
        (jsLastIndexOf remaining '!' MAX_LENGTH))
        (jsLastIndexOf remaining '?' MAX_LENGTH)
      if (MAX_LENGTH : Int) - 50 < lp then (lp + 1).toNat else MAX_LENGTH
/-- Fuelled form of the `while (remaining.length > MAX_LENGTH)` chunking loop
of `sendMessageIrc`, including the final `if (remaining) chunks.push(remaining)`:
each iteration cuts at `splitIndexOf`, trims trailing whitespace from the
emitted chunk and leading whitespace from the remainder.  Each iteration
shortens `remaining`, so any fuel of at least `remaining.length` is enough;
the fuel-exhausted branch is unreachable for such fuel. -/
def chunkLoopF (fuel : Nat) (remaining : List Char) : List (List Char) :=
  if remaining.length ≤ MAX_LENGTH then
    if remaining.isEmpty then [] else [remaining]
  else
    match fuel with
    | 0 => []
    | fuel + 1 =>
      let si := splitIndexOf remaining
      trimEndL (remaining.take si) :: chunkLoopF fuel (trimStartL (remaining.drop si))
/-- The chunking loop of `sendMessageIrc`. -/
def chunkLoop (remaining : List Char) : List (List Char) :=
  chunkLoopF remaining.length remaining
/-- The continuation marker appended to every non-final chunk (`" ..."`). -/
def contMarker : List Char := [' ', '.', '.', '.']
/-- The decoration loop of `sendMessageIrc`: every chunk after the first is
prefixed with the split prefix (when truthy, i.e. nonempty), every chunk
except the last gets the continuation marker.  `isFirst` tracks `i === 0`. -/
def decorateChunks (splitPrefix : List Char) (isFirst : Bool) :
    List (List Char) → List (List Char)
  | [] => []
  | [c] => [if ¬isFirst ∧ splitPrefix ≠ [] then splitPrefix ++ ' ' :: c else c]
  | c :: c' :: rest =>
    ((if ¬isFirst ∧ splitPrefix ≠ [] then splitPrefix ++ ' ' :: c else c) ++ contMarker)
      :: decorateChunks splitPrefix false (c' :: rest)
/-- Message kind of a protocol send call (`action` / `notice` / `say`). -/
inductive MsgKind where
  | say
  | notice
  | action
deriving DecidableEq, Repr
/-- `sendMessageIrc`'s kind dispatch: `action` wins over `notice` wins over
`say`. -/
def msgKind (action notice : Bool) : MsgKind :=
  if action then .action else if notice then .notice else .say
/-- One protocol send call as passed to the client (`say`/`notice`/`action`). -/
structure SendCall where
  kind : MsgKind
  target : List Char
  message : List Char
deriving DecidableEq, Repr
/-- Options of `sendMessageIrc`.  `splitPrefix = []` models the JS-falsy
absent/empty prefix. -/
structure SendOpts where
  action : Bool := false
  notice : Bool := false
  split : Bool := false
  splitPrefix : List Char := []
deriving DecidableEq, Repr
/-- The messages `sendMessageIrc` puts on the wire for a given text once the
connectivity check has passed: a single undecorated message when the text fits
the budget or splitting is off, otherwise the decorated chunks. -/
def wireMessages (text : List Char) (split : Bool) (splitPrefix : List Char) :
    List (List Char) :=
  if text.length ≤ MAX_LENGTH ∨ split = false then [text]
  else decorateChunks splitPrefix true (chunkLoop text)
/-- `sendMessageIrc` (the `src/irc/send.ts` delivery pipeline): fails when the
client is not connected, otherwise emits the wire messages in order as
protocol calls of the requested kind. -/
def sendMessageIrc (connected : Bool) (target text : List Char) (opts : SendOpts) :
    Except String (List SendCall) :=
  if connected = false then .error "IRC client not connected"
  else
    .ok ((wireMessages text opts.split opts.splitPrefix).map
      fun m => ⟨msgKind opts.action opts.notice, target, m⟩)
/-- `Reassem text chunks` says the chunks partition `text` in order, each cut
dropping only whitespace: `text = c₀ ++ w₀ ++ c₁ ++ w₁ ++ ⋯` with every `wᵢ`
whitespace.  It captures both "chunks are emitted in original text order" and
"concatenating the chunks reproduces the text modulo whitespace at cuts". -/
inductive Reassem : List Char → List (List Char) → Prop where
  | nil {w : List Char} (hw : ∀ c ∈ w, isJsWhitespace c) : Reassem w []
  | cons {chunk w rest : List Char} {chunks : List (List Char)}
      (hw : ∀ c ∈ w, isJsWhitespace c) (h : Reassem rest chunks) :
      Reassem (chunk ++ w ++ rest) (chunk :: chunks)
/-- The characters the spec's chunking algorithm can cut at (newline, space,
and the punctuation set `. , ; ! ?`); written from the spec's words to state
its "unsplittable run" exception. -/
def specSplitterChar (c : Char) : Bool :=
  c = '\n' || c = ' ' || c = '.' || c = ',' || c = ';' || c = '!' || c = '?'
def specOverlongRunAux (text : List Char) (cur : Nat) : Bool :=
  match text with
  | [] => decide (MAX_LENGTH < cur)
  | c :: rest =>
    if specSplitterChar c then decide (MAX_LENGTH < cur) || specOverlongRunAux rest 0
    else specOverlongRunAux rest (cur + 1)
/-- Written from the spec's words: the text contains a run longer than the
budget with no split opportunity in it (the spec's only allowed cause of an
over-budget chunk). -/
def specHasOverlongUnsplittableRun (text : List Char) : Bool :=
  specOverlongRunAux text 0
/-- 399 letters, a space, then 5 letters: the space boundary at index 399
splits it, yet the first on-wire message is 403 characters long. -/
def c1Text : List Char := List.replicate 399 'a' ++ ' ' :: List.replicate 5 'b'
/-- The 1000-character no-newline text of the spec's end-to-end example. -/
def c5Text : List Char := List.replicate 1000 'a'
/-- JS line terminators: the characters a JS regex `.` (and `[^:]`-free `.+`)
cannot match (`\n`, `\r`, U+2028, U+2029). -/
def isLineTerminator (c : Char) : Bool :=
  c.toNat = 10 || c.toNat = 13 || c.toNat = 8232 || c.toNat = 8233
/-- The literal `irc:` lead of a target key. -/
def ircKeyLead : List Char := ['i', 'r', 'c', ':']
/-- `buildIrcTargetKey` (src/irc/targets.ts): assembles
`irc:<accountId>:<target.toLowerCase()>`, the account id defaulting to
`default`. -/
def buildIrcTargetKey (accountId : Option (List Char)) (target : List Char) : List Char :=
  ircKeyLead ++ accountId.getD ['d', 'e', 'f', 'a', 'u', 'l', 't'] ++ ':' :: lowerL target
/-- `parseIrcTargetKey` (src/irc/targets.ts): the JS regex
`^irc:([^:]+):(.+)$`.  The first group is the maximal nonempty colon-free run
after `irc:`; the second group must be nonempty, reach the end of the string,
and (since `.` matches no line terminator and the regex has no `s` flag)
contain no line terminator. -/
def parseIrcTargetKey (key : List Char) : Option (List Char × List Char) :=
  if key.take 4 = ircKeyLead then
    let rest := key.drop 4
    let a := rest.takeWhile (fun c => c != ':')
    if a.isEmpty then none
    else
      match rest.drop a.length with
      | ':' :: b =>
        if b.isEmpty then none
        else if b.any isLineTerminator then none
        else some (a, b)
      | _ => none
  else none
/-- The `users` slot of an `IrcNetworkEntry` / `IrcChannelConfig` as consumed
by `isUserAllowed` (`config?.users`). -/
structure IrcSenderConfig where
  users : Option (List (List Char))
deriving DecidableEq
/-- `config?.users || []`. -/
def usersOf (config : Option IrcSenderConfig) : List (List Char) :=
  (config.bind IrcSenderConfig.users).getD []
/-- Fuelled matcher for the regex `^p$` where `p` is an allowlist pattern with
every `*` replaced by `.*` (as built by `isUserAllowed`), interpreted by JS
regex semantics on the metacharacter-free fragment: `.*` matches any run of
non-line-terminator characters, `.` matches any single non-line-terminator
character, anything else matches itself.  Every recursive call shrinks
`p.length + s.length`, so that sum plus one is always enough fuel. -/
def reMatchF (fuel : Nat) (p s : List Char) : Bool :=
  match fuel with
  | 0 => false
  | fuel + 1 =>
    match p with
    | [] => s.isEmpty
    | p0 :: ps =>
      if p0 = '*' then
        match s with
        | [] => reMatchF fuel ps []
        | c :: s' =>
          reMatchF fuel ps (c :: s') ||
            (!isLineTerminator c && reMatchF fuel (p0 :: ps) s')
      else
        match s with
        | [] => false
        | c :: s' =>
          (if p0 = '.' then !isLineTerminator c else p0 == c) && reMatchF fuel ps s'
/-- Anchored match of a `*`-expanded allowlist pattern against a string. -/
def reMatch (p s : List Char) : Bool :=
  reMatchF (p.length + s.length + 1) p s
/-- `isUserAllowed` (src/irc/monitor.ts): empty allowlist is open; otherwise
the nick must equal an entry case-insensitively, or (only when the hostname is
truthy, i.e. nonempty) the lowercased hostname must match an entry — via the
regex `^entry.replace(\*, .*)$` when the entry contains `*`, by equality
otherwise. -/
def isUserAllowed (nick hostname : List Char) (config : Option IrcSenderConfig) : Bool :=
  if (usersOf config).isEmpty then true
  else if (usersOf config).any (fun u => lowerL u == lowerL nick) then true
  else if !hostname.isEmpty then
    (usersOf config).any (fun u =>
      if (lowerL u).contains '*' then reMatch (lowerL u) (lowerL hostname)
      else lowerL hostname == lowerL u)
  else false
/-- Declarative semantics of the generated regex on the metacharacter-free
fragment: `.` is a single-character wildcard, `*` a gap, both excluding line
terminators, every other pattern character matches only itself. -/
inductive RMatch : List Char → List Char → Prop where
  | nil : RMatch [] []
  | dot {ps s : List Char} {c : Char} (hc : isLineTerminator c = false)
      (h : RMatch ps s) : RMatch ('.' :: ps) (c :: s)
  | lit {p : Char} {ps s : List Char} {c : Char} (hp : p ≠ '*') (hpd : p ≠ '.')
      (hpc : p = c) (h : RMatch ps s) : RMatch (p :: ps) (c :: s)
  | starEmpty {ps s : List Char} (h : RMatch ps s) : RMatch ('*' :: ps) s
  | starCons {ps s : List Char} {c : Char} (hc : isLineTerminator c = false)
      (h : RMatch ('*' :: ps) s) : RMatch ('*' :: ps) (c :: s)
/-- The regex metacharacters (beyond `*` and `.`) that `isUserAllowed` passes
through to `RegExp` uninterpreted; the matcher model is faithful only for
patterns free of them. -/
def isRegexMeta (c : Char) : Bool :=
  c = '\\' || c = '^' || c = '$' || c = '+' || c = '?' || c = '(' || c = ')' ||
  c = '[' || c = ']' || c = Char.ofNat 123 || c = Char.ofNat 125 || c = '|'
/-- Written from the spec's words (C4): `*` is a wildcard matching any run of
characters and every other character matches only itself, anchored to the full
hostname. -/
def specWildcardMatchF (fuel : Nat) (p s : List Char) : Bool :=
  match fuel with
  | 0 => false
  | fuel + 1 =>
    match p with
    | [] => s.isEmpty
    | p0 :: ps =>
      if p0 = '*' then
        match s with
        | [] => specWildcardMatchF fuel ps []
        | c :: s' =>
          specWildcardMatchF fuel ps (c :: s') || specWildcardMatchF fuel (p0 :: ps) s'
      else
        match s with
        | [] => false
        | c :: s' => p0 == c && specWildcardMatchF fuel ps s'
def specWildcardMatch (p s : List Char) : Bool :=
  specWildcardMatchF (p.length + s.length + 1) p s
/-- Written from the spec's words (C4): empty allowlist is open policy;
otherwise the nick equals some entry case-insensitively, or the hostname
matches some entry under the spec's `*`-wildcard semantics. -/
def specIsAllowed (nick hostname : List Char) (users : List (List Char)) : Bool :=
  users.isEmpty ||
  users.any (fun u => lowerL u == lowerL nick) ||
  users.any (fun u =>
    if (lowerL u).contains '*' then specWildcardMatch (lowerL u) (lowerL hostname)
    else lowerL hostname == lowerL u)
/-- The pattern `*@example.com` of the spec's own example. -/
def c4Pattern : List Char := ['*', '@', 'e', 'x', 'a', 'm', 'p', 'l', 'e', '.', 'c', 'o', 'm']
/-- A hostname where the pattern's `.` sits over a `z`. -/
def c4Hostname : List Char :=
  ['b', 'o', 'b', '@', 'e', 'x', 'a', 'm', 'p', 'l', 'e', 'z', 'c', 'o', 'm']
/-- Modelled from the spec: `DEFAULT_ACCOUNT_ID` comes from
`src/routing/session-key.ts`, which is not under `src/`; the spec calls it "a
fixed default sentinel id", and `buildIrcTargetKey` (which is in the source)
uses `"default"` for the same role. -/
def DEFAULT_ACCOUNT_ID : String := "default"
/-- Modelled from the spec: `normalizeAccountId` comes from
`src/routing/session-key.ts`, which is not under `src/`.  The spec's canonical
account ids match `[a-z0-9_-]+`; modelled as trimming and lowercasing with
`none` for an empty result, so canonical ids are fixed points. -/
def normalizeAccountId (s : String) : Option String :=
  let t := String.mk (lowerL (trimL s.data))
  if t = "" then none else some t
/-- An IRC server block; only presence and the probe's destructured fields
matter to the embedded operations. -/
structure IrcServerBlock where
  host : Option String := none
  port : Option Nat := none
  nick : Option String := none
deriving DecidableEq, Repr
/-- One entry of the `accounts` map (`channels.irc.accounts.<id>`). -/
structure IrcAccountEntry where
  enabled : Option Bool := none
  server : Option IrcServerBlock := none
deriving DecidableEq, Repr
/-- The `channels.irc` block.  The `accounts` map is an insertion-ordered
association list, as JS object keys are. -/
structure IrcTopConfig where
  enabled : Option Bool := none
  server : Option IrcServerBlock := none
  accounts : Option (List (String × IrcAccountEntry)) := none
deriving DecidableEq, Repr
/-- The slice of the OpenClaw config the IRC resolvers read (`cfg.channels?.irc`). -/
structure OpenClawCfg where
  irc : Option IrcTopConfig := none
deriving DecidableEq, Repr
/-- JS property lookup `accounts[accountId]`. -/
def lookupAccount (accs : List (String × IrcAccountEntry)) (k : String) :
    Option IrcAccountEntry :=
  (accs.find? (fun p => p.1 == k)).map (fun p => p.2)
/-- The result of a successful account resolution: the id, the matched config
(an accounts entry in multi-account mode, the top-level block in single-account
mode), and its server block. -/
structure ResolvedIrcAccount where
  accountId : String
  config : Sum IrcAccountEntry IrcTopConfig
  serverConfig : IrcServerBlock
deriving DecidableEq, Repr
/-- `listIrcAccountIds` (src/irc/accounts.ts): multi-account mode lists the
keys of entries whose `enabled` is not `false` (normalized); single-account
mode yields the default id when the block is enabled and has a server. -/
def listIrcAccountIds (cfg : OpenClawCfg) : List String :=
  match cfg.irc with
  | none => []
  | some ircCfg =>
    match ircCfg.accounts with
    | some accs =>
      (accs.filter (fun p => p.2.enabled ≠ some false)).map
        (fun p => (normalizeAccountId p.1).getD p.1)
    | none =>
      if ircCfg.enabled ≠ some false ∧ ircCfg.server ≠ none then [DEFAULT_ACCOUNT_ID]
      else []
/-- `resolveDefaultIrcAccountId` (src/irc/accounts.ts). -/
def resolveDefaultIrcAccountId (cfg : OpenClawCfg) : String :=
  match listIrcAccountIds cfg with
  | [] => DEFAULT_ACCOUNT_ID
  | [id] => id
  | _ => DEFAULT_ACCOUNT_ID
/-- `resolveIrcAccount` (src/irc/accounts.ts).  Note the guard: it requires a
top-level `channels.irc.server` block even in multi-account mode. -/
def resolveIrcAccount (cfg : OpenClawCfg) (inputAccountId : Option String) :
    Except String ResolvedIrcAccount :=
  match cfg.irc with
  | none => .error "IRC is not configured. Set channels.irc.server"
  | some ircCfg =>
    match ircCfg.server with
    | none => .error "IRC is not configured. Set channels.irc.server"
    | some topServer =>
      let accountId :=
        match inputAccountId with
        | some a =>
          if a = "" then resolveDefaultIrcAccountId cfg
          else (normalizeAccountId a).getD a
        | none => resolveDefaultIrcAccountId cfg
      match ircCfg.accounts with
      | some accs =>
        match lookupAccount accs accountId with
        | none =>
          .error ("IRC account \"" ++ accountId ++ "\" not found. Available: " ++
            String.intercalate ", " (accs.map (fun p => p.1)))
        | some account =>
          match account.server with
          | none =>
            .error ("IRC account \"" ++ accountId ++ "\" missing server configuration")
          | some server => .ok ⟨accountId, .inl account, server⟩
      | none =>
        if accountId ≠ DEFAULT_ACCOUNT_ID then
          .error ("IRC account \"" ++ accountId ++
            "\" requested but only default account is configured")
        else .ok ⟨DEFAULT_ACCOUNT_ID, .inr ircCfg, topServer⟩
/-- `resolveIrcAccount` (src/irc/accounts-resolver.ts): same shape, but the
not-configured guard accepts a config with either a top-level server or an
accounts map, and an omitted account id falls back to the default sentinel
directly. -/
def resolveIrcAccountR (cfg : OpenClawCfg) (inputAccountId : Option String) :
    Except String ResolvedIrcAccount :=
  match cfg.irc with
  | none => .error "IRC is not configured. Set channels.irc.server or channels.irc.accounts"
  | some ircCfg =>
    if ircCfg.server = none ∧ ircCfg.accounts = none then
      .error "IRC is not configured. Set channels.irc.server or channels.irc.accounts"
    else
      let accountId :=
        match inputAccountId with
        | some a =>
          if a = "" then DEFAULT_ACCOUNT_ID
          else (normalizeAccountId a).getD a
        | none => DEFAULT_ACCOUNT_ID
      match ircCfg.accounts with
      | some accs =>
        match lookupAccount accs accountId with
        | none =>
          .error ("IRC account \"" ++ accountId ++ "\" not found. Available: " ++
            String.intercalate ", " (accs.map (fun p => p.1)))
        | some account =>
          match account.server with
          | none =>
            .error ("IRC account \"" ++ accountId ++ "\" missing server configuration")
          | some server => .ok ⟨accountId, .inl account, server⟩
      | none =>
        if accountId ≠ DEFAULT_ACCOUNT_ID then
          .error ("IRC account \"" ++ accountId ++
            "\" requested but only default account is configured")
        else
          match ircCfg.server with
          | some server => .ok ⟨DEFAULT_ACCOUNT_ID, .inr ircCfg, server⟩
          | none =>
            .error "IRC is not configured. Set channels.irc.server or channels.irc.accounts"
/-- A server block, an account entry and a config used by the C3 theorems:
an accounts map containing `alice` (with a server block) but no top-level
server block. -/
def c3Server : IrcServerBlock :=
  { host := some "irc.example.org", port := some 6667, nick := some "bot" }
def c3Entry : IrcAccountEntry := { enabled := none, server := some c3Server }
def c3Cfg : OpenClawCfg :=
  { irc := some { enabled := none, server := none, accounts := some [("alice", c3Entry)] } }
/-- First-character class of the IRC nick regex
`[a-zA-Z_\-\[\]\\^{}|` + backtick + `]`. -/
def isIrcNickStart (c : Char) : Bool :=
  c.isAlpha || c = '_' || c = '-' || c = '[' || c = ']' || c = '\\' || c = '^' ||
  c = Char.ofNat 123 || c = Char.ofNat 125 || c = '|' || c = Char.ofNat 96
/-- Rest class of the nick regex: the first class plus digits. -/
def isIrcNickRest (c : Char) : Bool := isIrcNickStart c || c.isDigit
/-- The anchored nick regex test of `normalizeIrcMessagingTarget`. -/
def nickRegexTest (l : List Char) : Bool :=
  match l with
  | [] => false
  | c :: rest => isIrcNickStart c && rest.all isIrcNickRest
/-- The test `/^irc:[^:]+:.+/` of `normalizeIrcMessagingTarget`:
case-sensitive `irc:` lead, a nonempty colon-free group, a colon, then at
least one non-line-terminator character; unanchored at the end. -/
def ircKeyShapeTest (l : List Char) : Bool :=
  l.take 4 == ircKeyLead &&
    (let rest := l.drop 4
     let a := rest.takeWhile (fun c => c != ':')
     !a.isEmpty &&
       (match rest.drop a.length with
        | ':' :: c :: _ => !isLineTerminator c
        | _ => false))
/-- `normalizeIrcMessagingTarget`
(src/channels/plugins/normalize/irc.ts): trim; reject the empty result; an
`irc:…:…`-shaped input is lowercased and returned as-is; a `#…` input or an
input matching the nick regex is wrapped by `buildIrcTargetKey`; anything else
is rejected. -/
def normalizeIrcMessagingTarget (raw : List Char) : Option (List Char) :=
  let trimmed := trimL raw
  if trimmed.isEmpty then none
  else if ircKeyShapeTest trimmed then some (lowerL trimmed)
  else if trimmed.head? = some '#' then some (buildIrcTargetKey none trimmed)
  else if nickRegexTest trimmed then some (buildIrcTargetKey none trimmed)
  else none
/-- State of the `IrcClient` wrapper (src/irc/client.ts): the underlying
irc-framework instance (`null` until `connect()` constructs it, modelled by
presence), and the `connected` / `registered` flags. -/
structure IrcClientSt where
  client : Option Unit
  connected : Bool
  registered : Bool
deriving DecidableEq, Repr
/-- A freshly constructed `IrcClient`: the internal client is `null` and both
flags are false (`createIrcClient` builds exactly this, whatever the account
config). -/
def createIrcClient : IrcClientSt :=
  { client := none, connected := false, registered := false }
/-- `IrcClient.connect()`: throws when already connected; otherwise constructs
the internal client, installs the internal handlers, starts the connection and
sets `connected` — `registered` is only set later by the `registered` event,
which cannot have fired yet. -/
def IrcClientSt.connect (s : IrcClientSt) : Except String IrcClientSt :=
  if s.connected then .error "IRC client already connected"
  else .ok { s with client := some (), connected := true }
/-- `IrcClient.isConnected()`. -/
def IrcClientSt.isConnected (s : IrcClientSt) : Bool := s.connected
/-- `IrcClient.isRegistered()`. -/
def IrcClientSt.isRegistered (s : IrcClientSt) : Bool := s.registered
/-- `IrcClient.disconnect()`: a no-op when not connected or the internal
client is missing, otherwise one `quit()` call and both flags cleared.
Returns the new state and the number of `quit()` calls made. -/
def IrcClientSt.disconnect (s : IrcClientSt) : IrcClientSt × Nat :=
  if s.connected = false ∨ s.client = none then (s, 0)
  else ({ s with connected := false, registered := false }, 1)
/-- Result record of `probeIrc` (`IrcProbeResult`). -/
structure IrcProbeResult where
  ok : Bool
  connected : Option Bool := none
  error : Option String := none
  host : String
  port : Nat
  nick : String
deriving DecidableEq, Repr
/-- `probeIrc` (src/irc/probe.ts), with the number of `quit()`/cleanup
invocations as a second component.  The connection promise's executor runs
synchronously at construction and its first statement reads
`(client as any).client` — which is still `null`, because `createIrcClient`
never connects — and registers a listener on it; that throws a `TypeError`
(modelled by its V8 message), rejecting the connection promise before
`client.connect()` is ever called and before the timeout can win the race.
The `catch` stores the message and `probeIrc` returns normally; the `cleanup`
closure (listener removal + quit) never runs.  The `some` branch of the match
is unreachable. -/
def probeIrc (serverConfig : IrcServerBlock) (timeoutMs : Nat) : IrcProbeResult × Nat :=
  let host := serverConfig.host.getD "localhost"
  let port := serverConfig.port.getD 6697
  let nick := serverConfig.nick.getD "probe"
  let client := createIrcClient
  match client.client with
  | none =>
    ({ ok := false, connected := none,
       error := some "Cannot read properties of null (reading 'on')",
       host := host, port := port, nick := nick }, 0)
  | some _ =>
    ({ ok := false, connected := none, error := none,
       host := host, port := port, nick := nick }, 0)
/-- Per-channel config as read by the monitor's auto-join (only `enabled`
matters there). -/
structure IrcChanConfig where
  enabled : Option Bool := none
deriving DecidableEq, Repr
/-- A network entry's channel map (insertion-ordered, as JS object keys). -/
structure IrcNetworkChannels where
  channels : Option (List (String × IrcChanConfig)) := none
deriving DecidableEq, Repr
/-- Observable side effects of the monitor's event handlers. -/
inductive MonitorEffect where
  | logLine (s : String)
  | errorLine (s : String)
  | debugLine (s : String)
  | joinChannel (ch : String)
  | externalHandler (event : String)
deriving DecidableEq, Repr
/-- The auto-join loop of the `registered` handler: every channel of every
network whose `enabled` is not `false`, `#`-prefixed when needed. -/
def autoJoinEffects (networks : List (String × IrcNetworkChannels)) :
    List MonitorEffect :=
  (networks.map (fun nw =>
    ((nw.2.channels.getD []).filter (fun ch => ch.2.enabled ≠ some false)).map
      (fun ch =>
        MonitorEffect.joinChannel
          (match ch.1.data with
           | '#' :: _ => ch.1
           | _ => "#" ++ ch.1)))).join
/-- The monitor's `registered` handler (src/irc/monitor.ts): logs the
connection line, auto-joins, and forwards to an externally registered handler.
It takes the `stopped` flag but — unlike the message/notice handlers — its
body never consults it. -/
def onRegisteredEffects (stopped : Bool) (host : String) (port : Option Nat)
    (nick : String) (networks : List (String × IrcNetworkChannels))
    (ext : String → Bool) : List MonitorEffect :=
  MonitorEffect.logLine
      ("[irc] Connected to " ++ host ++ ":" ++ toString (port.getD 6697) ++
        " as " ++ nick) ::
    autoJoinEffects networks ++
      (if ext "registered" then [MonitorEffect.externalHandler "registered"] else [])
/-- The monitor's `message` handler: drops the event when stopped, otherwise
logs at debug level and forwards. -/
def onMessageEffects (stopped : Bool) (nick message : String)
    (ext : String → Bool) : List MonitorEffect :=
  if stopped then []
  else
    MonitorEffect.debugLine ("[irc] <" ++ nick ++ "> " ++ message) ::
      (if ext "message" then [MonitorEffect.externalHandler "message"] else [])
/-- The monitor's `notice` handler: drops the event when stopped, otherwise
logs at debug level and forwards. -/
def onNoticeEffects (stopped : Bool) (nick message : String)
    (ext : String → Bool) : List MonitorEffect :=
  if stopped then []
  else
    MonitorEffect.debugLine ("[irc] Notice from " ++ nick ++ ": " ++ message) ::
      (if ext "notice" then [MonitorEffect.externalHandler "notice"] else [])
/-- The monitor's `error` handler: logs and forwards; it never consults the
`stopped` flag. -/
def onErrorEffects (stopped : Bool) (errMsg : String) (ext : String → Bool) :
    List MonitorEffect :=
  MonitorEffect.errorLine ("[irc] Error: " ++ errMsg) ::
    (if ext "error" then [MonitorEffect.externalHandler "error"] else [])
/-- The monitor's `close` handler: the reconnect log line is suppressed when
stopped, but the external forward still happens. -/
def onCloseEffects (stopped : Bool) (ext : String → Bool) : List MonitorEffect :=
  (if stopped then []
   else [MonitorEffect.logLine "[irc] Connection closed, reconnecting..."]) ++
    (if ext "close" then [MonitorEffect.externalHandler "close"] else [])
/-- The monitor handle's mutable state: the `stopped` flag closed over by the
handlers, and the wrapped client. -/
structure MonitorState where
  stopped : Bool
  client : IrcClientSt
deriving DecidableEq, Repr
/-- The handle's `stop()`: sets the flag and calls
`client.disconnect("Monitoring stopped")`; returns the new state and the
number of `quit()` calls the disconnect made. -/
def monitorStop (st : MonitorState) : MonitorState × Nat :=
  let (c', quits) := st.client.disconnect
  ({ stopped := true, client := c' }, quits)
theorem lastIndexOfAux_le (l : List Char) (c : Char) {i : Nat}
    (h : lastIndexOfAux l c = some i) : i < l.length := by
  induction l generalizing i with
  | nil => simp [lastIndexOfAux] at h
  | cons x xs ih =>
    simp only [lastIndexOfAux] at h
    cases hx : lastIndexOfAux xs c with
    | some j =>
      rw [hx] at h
      cases h
      simpa using Nat.succ_lt_succ (ih hx)
    | none =>
      rw [hx] at h
      by_cases hxc : x = c <;> simp [hxc] at h
      simp only [List.length_cons]
      omega
theorem jsLastIndexOf_le (l : List Char) (c : Char) (pos : Nat) {i : Nat}
    (h : jsLastIndexOf l c pos = (i : Int)) : i ≤ pos := by
  unfold jsLastIndexOf at h
  cases hx : lastIndexOfAux (l.take (pos + 1)) c with
  | some j =>
    rw [hx] at h
    simp only at h
    have hj := lastIndexOfAux_le _ _ hx
    have hlen : (l.take (pos + 1)).length ≤ pos + 1 := List.length_take_le (pos + 1) l
    have hij : j = i := by exact_mod_cast h
    omega
  | none =>
    rw [hx] at h
    simp only at h
    omega
theorem splitIndexOf_pos (remaining : List Char) : 0 < splitIndexOf remaining := by
  unfold splitIndexOf
  dsimp only [MAX_LENGTH]
  split
  · next h => omega
  · split
    · next h => omega
    · split
      · next h => omega
      · omega
theorem dropWhile_length_le (p : Char → Bool) (l : List Char) :
    (l.dropWhile p).length ≤ l.length := by
  induction l with
  | nil => simp
  | cons x xs ih =>
    by_cases h : p x <;> simp [List.dropWhile_cons, h] <;> omega
theorem trimStartL_length_le (l : List Char) : (trimStartL l).length ≤ l.length :=
  dropWhile_length_le _ l
theorem trimEndL_length_le (l : List Char) : (trimEndL l).length ≤ l.length := by
  unfold trimEndL
  have := dropWhile_length_le isJsWhitespace l.reverse
  simpa using this
/-- One loop iteration strictly shortens the remaining text. -/
theorem chunkNext_length_lt (remaining : List Char)
    (h : ¬ remaining.length ≤ MAX_LENGTH) :
    (trimStartL (remaining.drop (splitIndexOf remaining))).length < remaining.length := by
  have hsi : 0 < splitIndexOf remaining := splitIndexOf_pos remaining
  have h1 : (trimStartL (remaining.drop (splitIndexOf remaining))).length ≤
      (remaining.drop (splitIndexOf remaining)).length :=
    trimStartL_length_le _
  have h2 : (remaining.drop (splitIndexOf remaining)).length =
      remaining.length - splitIndexOf remaining := List.length_drop _ _
  omega
theorem chunkLoopF_fuel_irrel :
    ∀ (fuel fuel' : Nat) (remaining : List Char),
      remaining.length ≤ fuel → remaining.length ≤ fuel' →
      chunkLoopF fuel remaining = chunkLoopF fuel' remaining := by
  intro fuel
  induction fuel with
  | zero =>
    intro fuel' remaining h h'
    have h0 : remaining = [] := List.eq_nil_of_length_eq_zero (Nat.le_zero.mp h)
    subst h0
    cases fuel' <;> rfl
  | succ fuel ih =>
    intro fuel' remaining h h'
    by_cases hle : remaining.length ≤ MAX_LENGTH
    · unfold chunkLoopF
      rw [if_pos hle, if_pos hle]
    · cases fuel' with
      | zero =>
        exfalso
        have h0 : remaining = [] := List.eq_nil_of_length_eq_zero (Nat.le_zero.mp h')
        subst h0
        exact hle (by simp [MAX_LENGTH])
      | succ fuel' =>
        unfold chunkLoopF
        rw [if_neg hle, if_neg hle]
        simp only
        have hlt := chunkNext_length_lt remaining hle
        have heq := ih fuel' (trimStartL (remaining.drop (splitIndexOf remaining)))
          (by omega) (by omega)
        rw [heq]
theorem jsLastIndexOf_le_pos (l : List Char) (c : Char) (pos : Nat) :
    jsLastIndexOf l c pos ≤ (pos : Int) := by
  unfold jsLastIndexOf
  cases hx : lastIndexOfAux (l.take (pos + 1)) c with
  | some j =>
    simp only
    have hj := lastIndexOfAux_le _ _ hx
    have hlen : (l.take (pos + 1)).length ≤ pos + 1 := List.length_take_le (pos + 1) l
    exact_mod_cast (by omega : j ≤ pos)
  | none =>
    simp only
    omega
theorem splitIndexOf_le (remaining : List Char) :
    splitIndexOf remaining ≤ MAX_LENGTH + 1 := by
  have hn := jsLastIndexOf_le_pos remaining '\n' MAX_LENGTH
  have hs := jsLastIndexOf_le_pos remaining ' ' MAX_LENGTH
  have hd := jsLastIndexOf_le_pos remaining '.' MAX_LENGTH
  have hc := jsLastIndexOf_le_pos remaining ',' MAX_LENGTH
  have hsc := jsLastIndexOf_le_pos remaining ';' MAX_LENGTH
  have hb := jsLastIndexOf_le_pos remaining '!' MAX_LENGTH
  have hq := jsLastIndexOf_le_pos remaining '?' MAX_LENGTH
  unfold splitIndexOf
  simp only [MAX_LENGTH] at hn hs hd hc hsc hb hq ⊢
  split
  · next h => omega
  · split
    · next h => omega
    · split
      · next h =>
        have hmax : max (max (max (max
            (jsLastIndexOf remaining '.' 400)
            (jsLastIndexOf remaining ',' 400))
            (jsLastIndexOf remaining ';' 400))
            (jsLastIndexOf remaining '!' 400))
            (jsLastIndexOf remaining '?' 400) ≤ ((400 : Nat) : Int) := by
          simp only [max_le_iff]
          exact ⟨⟨⟨⟨hd, hc⟩, hsc⟩, hb⟩, hq⟩
        omega
      · omega
theorem chunkLoop_eq_of_le {remaining : List Char}
    (h : remaining.length ≤ MAX_LENGTH) :
    chunkLoop remaining = if remaining.isEmpty then [] else [remaining] := by
  unfold chunkLoop chunkLoopF
  rw [if_pos h]
theorem chunkLoopF_step (fuel : Nat) (remaining : List Char)
    (h : ¬ remaining.length ≤ MAX_LENGTH) :
    chunkLoopF (fuel + 1) remaining =
      trimEndL (remaining.take (splitIndexOf remaining)) ::
        chunkLoopF fuel (trimStartL (remaining.drop (splitIndexOf remaining))) := by
  show (if remaining.length ≤ MAX_LENGTH then
      if remaining.isEmpty then [] else [remaining]
    else
      trimEndL (remaining.take (splitIndexOf remaining)) ::
        chunkLoopF fuel (trimStartL (remaining.drop (splitIndexOf remaining)))) = _
  rw [if_neg h]
theorem chunkLoop_eq_of_gt {remaining : List Char}
    (h : ¬ remaining.length ≤ MAX_LENGTH) :
    chunkLoop remaining =
      trimEndL (remaining.take (splitIndexOf remaining)) ::
        chunkLoop (trimStartL (remaining.drop (splitIndexOf remaining))) := by
  cases hL : remaining.length with
  | zero =>
    exfalso
    apply h
    rw [hL]
    exact Nat.zero_le _
  | succ n =>
    have hlt := chunkNext_length_lt remaining h
    unfold chunkLoop
    rw [hL, chunkLoopF_step n remaining h]
    have heq := chunkLoopF_fuel_irrel n
      (trimStartL (remaining.drop (splitIndexOf remaining))).length
      (trimStartL (remaining.drop (splitIndexOf remaining)))
      (by omega) (Nat.le_refl _)
    rw [heq]
/-- Every chunk the splitting loop produces has length at most
`MAX_LENGTH + 1` (401: a punctuation boundary found exactly at the budget
yields budget + 1; the hard-cut fallback yields exactly the budget). -/
theorem chunkLoop_length_le (text : List Char) :
    ∀ c ∈ chunkLoop text, c.length ≤ MAX_LENGTH + 1 := by
  generalize hn : text.length = n
  induction n using Nat.strong_induction_on generalizing text with
  | _ n ih =>
    by_cases hle : text.length ≤ MAX_LENGTH
    · intro c hc
      rw [chunkLoop_eq_of_le hle] at hc
      split at hc
      · simp at hc
      · rw [List.mem_singleton] at hc
        subst hc
        exact Nat.le_trans hle (Nat.le_succ _)
    · intro c hc
      rw [chunkLoop_eq_of_gt hle] at hc
      rw [List.mem_cons] at hc
      rcases hc with rfl | hc
      · calc (trimEndL (text.take (splitIndexOf text))).length
            ≤ (text.take (splitIndexOf text)).length := trimEndL_length_le _
          _ ≤ splitIndexOf text := List.length_take_le _ text
          _ ≤ MAX_LENGTH + 1 := splitIndexOf_le text
      · exact ih _ (hn ▸ chunkNext_length_lt text hle) _ rfl c hc
theorem trimEndL_decomp (l : List Char) :
    ∃ w, l = trimEndL l ++ w ∧ ∀ c ∈ w, isJsWhitespace c := by
  refine ⟨(l.reverse.takeWhile isJsWhitespace).reverse, ?_, ?_⟩
  · have h : l.reverse.reverse =
        (List.takeWhile isJsWhitespace l.reverse ++
          List.dropWhile isJsWhitespace l.reverse).reverse := by
      rw [List.takeWhile_append_dropWhile]
    rw [List.reverse_reverse, List.reverse_append] at h
    exact h
  · intro c hc
    rw [List.mem_reverse] at hc
    exact List.mem_takeWhile_imp hc
theorem trimStartL_decomp (l : List Char) :
    ∃ w, l = w ++ trimStartL l ∧ ∀ c ∈ w, isJsWhitespace c := by
  refine ⟨l.takeWhile isJsWhitespace, ?_, ?_⟩
  · exact (List.takeWhile_append_dropWhile isJsWhitespace l).symm
  · intro c hc
    exact List.mem_takeWhile_imp hc
/-- The splitting loop emits the text's content in original order: only
whitespace is dropped at the cut points. -/
theorem chunkLoop_reassem (text : List Char) : Reassem text (chunkLoop text) := by
  generalize hn : text.length = n
  induction n using Nat.strong_induction_on generalizing text with
  | _ n ih =>
    by_cases hle : text.length ≤ MAX_LENGTH
    · rw [chunkLoop_eq_of_le hle]
      split
      · next hnil =>
        rw [List.isEmpty_iff] at hnil
        subst hnil
        exact Reassem.nil (by intro c hc; simp at hc)
      · have h := @Reassem.cons text [] [] []
          (by intro c hc; simp at hc)
          (@Reassem.nil [] (by intro c hc; simp at hc))
        simpa using h
    · rw [chunkLoop_eq_of_gt hle]
      obtain ⟨w1, he1, hw1⟩ := trimEndL_decomp (text.take (splitIndexOf text))
      obtain ⟨w2, he2, hw2⟩ := trimStartL_decomp (text.drop (splitIndexOf text))
      have hws : ∀ c ∈ w1 ++ w2, isJsWhitespace c := by
        intro c hc
        rw [List.mem_append] at hc
        rcases hc with hc | hc
        · exact hw1 c hc
        · exact hw2 c hc
      have hcons := @Reassem.cons
        (trimEndL (text.take (splitIndexOf text)))
        (w1 ++ w2)
        (trimStartL (text.drop (splitIndexOf text)))
        (chunkLoop (trimStartL (text.drop (splitIndexOf text))))
        hws (ih _ (hn ▸ chunkNext_length_lt text hle) _ rfl)
      have hre : trimEndL (text.take (splitIndexOf text)) ++ (w1 ++ w2) ++
          trimStartL (text.drop (splitIndexOf text)) = text := by
        conv_rhs => rw [← List.take_append_drop (splitIndexOf text) text]
        conv_rhs => rw [he1, he2]
        simp [List.append_assoc]
      rwa [hre] at hcons
theorem decorate_one_length (pre c : List Char) (b : Bool) :
    (if ¬b ∧ pre ≠ [] then pre ++ ' ' :: c else c).length ≤
      c.length + (if pre = [] then 0 else pre.length + 1) := by
  split
  · next h =>
    rw [if_neg h.2]
    simp only [List.length_append, List.length_cons]
    omega
  · next h =>
    split <;> omega
/-- Length of a decorated message: chunk plus (optional) split prefix plus
(optional) continuation marker. -/
theorem decorateChunks_length_le (splitPrefix : List Char) (B : Nat) :
    ∀ (isFirst : Bool) (chunks : List (List Char)),
      (∀ c ∈ chunks, c.length ≤ B) →
      ∀ m ∈ decorateChunks splitPrefix isFirst chunks,
        m.length ≤ B + (if splitPrefix = [] then 0 else splitPrefix.length + 1) + 4 := by
  intro isFirst chunks
  induction chunks generalizing isFirst with
  | nil =>
    intro _ m hm
    simp [decorateChunks] at hm
  | cons c rest ih =>
    intro hB m hm
    cases rest with
    | nil =>
      rw [decorateChunks, List.mem_singleton] at hm
      subst hm
      have hc := hB c (by simp)
      have hd := decorate_one_length splitPrefix c isFirst
      omega
    | cons c' rest' =>
      rw [decorateChunks, List.mem_cons] at hm
      rcases hm with rfl | hm
      · have hc := hB c (by simp)
        have hd := decorate_one_length splitPrefix c isFirst
        have hmark : contMarker.length = 4 := by rfl
        rw [List.length_append, hmark]
        omega
      · exact ih false (fun x hx => hB x (List.mem_cons_of_mem c hx)) m hm
theorem reassem_single (t : List Char) : Reassem t [t] := by
  have h := @Reassem.cons t [] [] []
    (by intro c hc; simp at hc)
    (@Reassem.nil [] (by intro c hc; simp at hc))
  simpa using h
/-- C1 counterexample: for `c1Text` (which has no unsplittable run longer
than the budget — its longest splitter-free run is 399 characters) the first
protocol message is 403 characters long, exceeding the 400-character budget,
without the hard-cut fallback being involved.  The claim's budget bound is
therefore false as stated. -/
theorem sendMessageIrc_budget_counterexample :
    (sendMessageIrc true ['#', 'c'] c1Text
        { action := false, notice := false, split := true, splitPrefix := [] }).map
      (List.map fun call => call.message.length) = .ok [403, 5] ∧
    specHasOverlongUnsplittableRun c1Text = false ∧
    ¬ (403 ≤ MAX_LENGTH) :=
  ⟨by rfl, by rfl, by decide⟩
/-- C1 (amended): with splitting enabled and the default budget of 400, every
protocol message emitted by the delivery pipeline has length at most
401 + 4 + (split-prefix length + 1 when a split prefix applies): raw chunks
never exceed 401 characters (the hard-cut fallback emits exactly 400, and a
punctuation boundary at the budget can add one), and the split prefix and the
4-character continuation marker are added on top of the budget rather than
counted inside it.  The chunks are emitted in original text order: the text is
exactly the chunks in emission order with only whitespace dropped at the cut
points. -/
theorem sendMessageIrc_chunk_budget_and_order
    (target text splitPrefix : List Char) (action notice : Bool) :
    sendMessageIrc true target text
        { action := action, notice := notice, split := true, splitPrefix := splitPrefix } =
      .ok ((wireMessages text true splitPrefix).map
        fun m => ⟨msgKind action notice, target, m⟩) ∧
    (∀ m ∈ wireMessages text true splitPrefix,
      m.length ≤ MAX_LENGTH + 1 +
        (if splitPrefix = [] then 0 else splitPrefix.length + 1) + 4) ∧
    Reassem text (if text.length ≤ MAX_LENGTH then [text] else chunkLoop text) := by
  refine ⟨rfl, ?_, ?_⟩
  · intro m hm
    unfold wireMessages at hm
    by_cases hle : text.length ≤ MAX_LENGTH
    · rw [if_pos (Or.inl hle)] at hm
      rw [List.mem_singleton] at hm
      subst hm
      omega
    · have hcond : ¬ (text.length ≤ MAX_LENGTH ∨ (true = false)) := by
        simpa using hle
      rw [if_neg hcond] at hm
      exact decorateChunks_length_le splitPrefix (MAX_LENGTH + 1) true
        (chunkLoop text) (chunkLoop_length_le text) m hm
  · split
    · exact reassem_single text
    · exact chunkLoop_reassem text
/-- C5 counterexample: for the 1000-character text `c5Text`, the pipeline does
emit exactly 3 protocol calls, but the first two messages are 404 bytes long
(400-character chunk plus the 4-character marker), not "at most 400 bytes" as
claimed. -/
theorem sendMessageIrc_thousand_counterexample :
    (sendMessageIrc true ['b', 'o', 'b'] c5Text
        { action := false, notice := false, split := true, splitPrefix := [] }).map
      (List.map fun call => call.message.length) = .ok [404, 404, 200] ∧
    ¬ (404 ≤ MAX_LENGTH) :=
  ⟨by rfl, by decide⟩
/-- C5 (amended): for the 1000-character text of a repeated letter (no
newlines and no split boundaries), sent with splitting enabled and the default
budget 400, the pipeline emits exactly 3 protocol calls; the first two are a
400-character hard-cut chunk plus the 4-character continuation marker (404
bytes each, ending with the marker); the third carries the remaining 200
characters and no marker. -/
theorem sendMessageIrc_thousand_char_behavior :
    sendMessageIrc true ['b', 'o', 'b'] c5Text
        { action := false, notice := false, split := true, splitPrefix := [] } =
      .ok [⟨.say, ['b', 'o', 'b'], List.replicate 400 'a' ++ contMarker⟩,
           ⟨.say, ['b', 'o', 'b'], List.replicate 400 'a' ++ contMarker⟩,
           ⟨.say, ['b', 'o', 'b'], List.replicate 200 'a'⟩] ∧
    (List.replicate 400 'a' ++ contMarker).length = 404 ∧
    contMarker.IsSuffix (List.replicate 400 'a' ++ contMarker) ∧
    ¬ contMarker.IsSuffix (List.replicate 200 'a') :=
  ⟨by rfl, by rfl, ⟨List.replicate 400 'a', rfl⟩, by decide⟩
theorem char_toNat_inj {a b : Char} (h : a.toNat = b.toNat) : a = b :=
  Char.eq_of_val_eq (UInt32.ext h)
theorem charOfNat_toNat {n : Nat} (h : n < 55296) : (Char.ofNat n).toNat = n := by
  unfold Char.ofNat
  rw [dif_pos (Or.inl h)]
  simp only [Char.ofNatAux, Char.toNat]
  change (UInt32.ofNatCore n _).toNat = n
  simp [UInt32.ofNatCore, UInt32.toNat]
theorem jsToLowerChar_toNat (c : Char) :
    (jsToLowerChar c).toNat =
      if 'A' ≤ c ∧ c ≤ 'Z' then c.toNat + 32 else c.toNat := by
  unfold jsToLowerChar
  split
  · next h =>
    have h90 : c.toNat ≤ 90 := h.2
    exact charOfNat_toNat (by omega)
  · next h =>
    rfl
theorem jsToLowerChar_ne_colon {c : Char} (h : c ≠ ':') : jsToLowerChar c ≠ ':' := by
  intro he
  have ht := congrArg Char.toNat he
  rw [jsToLowerChar_toNat] at ht
  have h58 : (':' : Char).toNat = 58 := rfl
  split at ht
  · next hr =>
    have h65 : 65 ≤ c.toNat := hr.1
    omega
  · exact h (char_toNat_inj ht)
theorem jsToLowerChar_lineTerm {c : Char} (h : isLineTerminator c = false) :
    isLineTerminator (jsToLowerChar c) = false := by
  have ht := jsToLowerChar_toNat c
  simp only [isLineTerminator, Bool.or_eq_false_iff, decide_eq_false_iff_not] at h ⊢
  split at ht
  · next hr =>
    have h65 : 65 ≤ c.toNat := hr.1
    have h90 : c.toNat ≤ 90 := hr.2
    omega
  · rw [ht]
    exact h
theorem takeWhile_append_cons (p : Char → Bool) (xs : List Char) (y : Char)
    (ys : List Char) (hxs : ∀ x ∈ xs, p x = true) (hy : p y = false) :
    (xs ++ y :: ys).takeWhile p = xs := by
  induction xs with
  | nil => simp [List.takeWhile_cons, hy]
  | cons x xs ih =>
    rw [List.cons_append, List.takeWhile_cons, hxs x (List.mem_cons_self x xs)]
    rw [ih (fun z hz => hxs z (List.mem_cons_of_mem x hz))]
    simp
/-- C2 counterexample: the round-trip fails for the empty target (which
contains no `:`): the key `irc:a:` does not match `(.+)$`, and it also fails
for a target with an embedded newline, which `.` cannot match.  Both decodings
return `null` instead of the claimed account/target pair. -/
theorem parseIrcTargetKey_roundtrip_counterexample :
    parseIrcTargetKey (buildIrcTargetKey (some ['a']) []) = none ∧
    parseIrcTargetKey (buildIrcTargetKey (some ['a']) ['x', '\n', 'y']) = none :=
  ⟨by rfl, by rfl⟩
/-- C2 (amended): for every accountId matching `[a-z0-9_-]+` and every target
that is nonempty, contains no `:`, and contains no JS line terminator,
decoding the encoding round-trips:
`parseIrcTargetKey (buildIrcTargetKey accountId target)` equals
`(accountId, lowercase target)`. -/
theorem parseIrcTargetKey_buildIrcTargetKey
    (accountId target : List Char)
    (haccNe : accountId ≠ [])
    (hacc : ∀ c ∈ accountId, c.isLower = true ∨ c.isDigit = true ∨ c = '_' ∨ c = '-')
    (htgtNe : target ≠ [])
    (hcolon : ':' ∉ target)
    (hterm : ∀ c ∈ target, isLineTerminator c = false) :
    parseIrcTargetKey (buildIrcTargetKey (some accountId) target) =
      some (accountId, lowerL target) := by
  have hne : ∀ c ∈ accountId, (c != ':') = true := by
    intro c hc
    rw [bne_iff_ne]
    rcases hacc c hc with h | h | h | h
    · intro he
      subst he
      simp [Char.isLower] at h
    · intro he
      subst he
      simp [Char.isDigit] at h
    · subst h
      intro he
      exact absurd (congrArg Char.toNat he) (by decide)
    · subst h
      intro he
      exact absurd (congrArg Char.toNat he) (by decide)
  have hkey : buildIrcTargetKey (some accountId) target =
      ircKeyLead ++ (accountId ++ ':' :: lowerL target) := by
    unfold buildIrcTargetKey
    rfl
  have h1 : (ircKeyLead ++ (accountId ++ ':' :: lowerL target)).take 4 = ircKeyLead :=
    List.take_left' rfl
  have h2 : (ircKeyLead ++ (accountId ++ ':' :: lowerL target)).drop 4 =
      accountId ++ ':' :: lowerL target :=
    List.drop_left' rfl
  have h3 : (accountId ++ ':' :: lowerL target).takeWhile (fun c => c != ':') =
      accountId :=
    takeWhile_append_cons _ accountId ':' (lowerL target) hne (by decide)
  have h4 : (accountId ++ ':' :: lowerL target).drop accountId.length =
      ':' :: lowerL target :=
    List.drop_left accountId _
  have h5 : accountId.isEmpty = false := by
    rw [List.isEmpty_eq_false_iff_exists_mem]
    cases accountId with
    | nil => exact absurd rfl haccNe
    | cons x xs => exact ⟨x, List.mem_cons_self x xs⟩
  have h6 : (lowerL target).isEmpty = false := by
    rw [List.isEmpty_eq_false_iff_exists_mem]
    cases target with
    | nil => exact absurd rfl htgtNe
    | cons x xs => exact ⟨jsToLowerChar x, by simp [lowerL]⟩
  have h7 : (lowerL target).any isLineTerminator = false := by
    rw [List.any_eq_false]
    intro c hc
    rw [lowerL, List.mem_map] at hc
    obtain ⟨c0, hc0, rfl⟩ := hc
    rw [jsToLowerChar_lineTerm (hterm c0 hc0)]
    exact Bool.false_ne_true
  rw [hkey]
  unfold parseIrcTargetKey
  rw [if_pos h1]
  simp only [h2, h3, h4, h5, h6, h7]
  rfl
/-- C2 witness: the round-trip theorem applied at `accountId = "bot2"` and
`target = "#Chan"`. -/
theorem parseIrcTargetKey_buildIrcTargetKey_witness :
    parseIrcTargetKey
        (buildIrcTargetKey (some ['b', 'o', 't', '2']) ['#', 'C', 'h', 'a', 'n']) =
      some (['b', 'o', 't', '2'], lowerL ['#', 'C', 'h', 'a', 'n']) :=
  parseIrcTargetKey_buildIrcTargetKey ['b', 'o', 't', '2'] ['#', 'C', 'h', 'a', 'n']
    (by decide) (by decide) (by decide) (by decide) (by decide)
theorem reMatchF_fuel_irrel :
    ∀ (fuel fuel' : Nat) (p s : List Char),
      p.length + s.length < fuel → p.length + s.length < fuel' →
      reMatchF fuel p s = reMatchF fuel' p s := by
  intro fuel
  induction fuel with
  | zero =>
    intro fuel' p s h h'
    omega
  | succ fuel ih =>
    intro fuel' p s h h'
    cases fuel' with
    | zero => omega
    | succ fuel' =>
      cases p with
      | nil => rfl
      | cons p0 ps =>
        simp only [List.length_cons] at h h'
        by_cases hstar : p0 = '*'
        · subst hstar
          cases s with
          | nil =>
            have e1 : reMatchF (fuel + 1) ('*' :: ps) [] = reMatchF fuel ps [] := rfl
            have e2 : reMatchF (fuel' + 1) ('*' :: ps) [] = reMatchF fuel' ps [] := rfl
            rw [e1, e2]
            exact ih fuel' ps [] (by simp only [List.length_nil]; omega)
              (by simp only [List.length_nil]; omega)
          | cons c s' =>
            simp only [List.length_cons] at h h'
            have e1 : reMatchF (fuel + 1) ('*' :: ps) (c :: s') =
                (reMatchF fuel ps (c :: s') ||
                  (!isLineTerminator c && reMatchF fuel ('*' :: ps) s')) := rfl
            have e2 : reMatchF (fuel' + 1) ('*' :: ps) (c :: s') =
                (reMatchF fuel' ps (c :: s') ||
                  (!isLineTerminator c && reMatchF fuel' ('*' :: ps) s')) := rfl
            rw [e1, e2]
            rw [ih fuel' ps (c :: s') (by simp only [List.length_cons]; omega)
              (by simp only [List.length_cons]; omega)]
            rw [ih fuel' ('*' :: ps) s' (by simp only [List.length_cons]; omega)
              (by simp only [List.length_cons]; omega)]
        · cases s with
          | nil =>
            have e1 : reMatchF (fuel + 1) (p0 :: ps) [] =
                (if p0 = '*' then reMatchF fuel ps [] else false) := rfl
            have e2 : reMatchF (fuel' + 1) (p0 :: ps) [] =
                (if p0 = '*' then reMatchF fuel' ps [] else false) := rfl
            rw [e1, e2, if_neg hstar, if_neg hstar]
          | cons c s' =>
            simp only [List.length_cons] at h h'
            have e1 : reMatchF (fuel + 1) (p0 :: ps) (c :: s') =
                (if p0 = '*' then
                  (reMatchF fuel ps (c :: s') ||
                    (!isLineTerminator c && reMatchF fuel (p0 :: ps) s'))
                else
                  ((if p0 = '.' then !isLineTerminator c else p0 == c) &&
                    reMatchF fuel ps s')) := rfl
            have e2 : reMatchF (fuel' + 1) (p0 :: ps) (c :: s') =
                (if p0 = '*' then
                  (reMatchF fuel' ps (c :: s') ||
                    (!isLineTerminator c && reMatchF fuel' (p0 :: ps) s'))
                else
                  ((if p0 = '.' then !isLineTerminator c else p0 == c) &&
                    reMatchF fuel' ps s')) := rfl
            rw [e1, e2, if_neg hstar, if_neg hstar]
            rw [ih fuel' ps s' (by omega) (by omega)]
theorem reMatch_eq_reMatchF (fuel : Nat) (p s : List Char)
    (h : p.length + s.length < fuel) : reMatch p s = reMatchF fuel p s :=
  reMatchF_fuel_irrel _ _ _ _ (by omega) h
theorem reMatch_nil_eq (s : List Char) : reMatch [] s = s.isEmpty := rfl
theorem reMatch_star_nil (ps : List Char) : reMatch ('*' :: ps) [] = reMatch ps [] := by
  have h1 : reMatch ('*' :: ps) [] =
      reMatchF (('*' :: ps).length + ([] : List Char).length) ps [] := rfl
  rw [h1, ← reMatch_eq_reMatchF _ ps []
    (by simp only [List.length_cons, List.length_nil]; omega)]
theorem reMatch_star_cons (ps s' : List Char) (c : Char) :
    reMatch ('*' :: ps) (c :: s') =
      (reMatch ps (c :: s') || (!isLineTerminator c && reMatch ('*' :: ps) s')) := by
  have h1 : reMatch ('*' :: ps) (c :: s') =
      (reMatchF (('*' :: ps).length + (c :: s').length) ps (c :: s') ||
        (!isLineTerminator c &&
          reMatchF (('*' :: ps).length + (c :: s').length) ('*' :: ps) s')) := rfl
  rw [h1, ← reMatch_eq_reMatchF _ ps (c :: s')
    (by simp only [List.length_cons]; omega),
    ← reMatch_eq_reMatchF _ ('*' :: ps) s'
    (by simp only [List.length_cons]; omega)]
theorem reMatch_lit_nil (p0 : Char) (ps : List Char) (hp : p0 ≠ '*') :
    reMatch (p0 :: ps) [] = false := by
  have e : reMatch (p0 :: ps) [] =
      (if p0 = '*' then reMatchF ((p0 :: ps).length) ps [] else false) := rfl
  rw [e, if_neg hp]
theorem reMatch_lit_cons (p0 : Char) (ps s' : List Char) (c : Char) (hp : p0 ≠ '*') :
    reMatch (p0 :: ps) (c :: s') =
      ((if p0 = '.' then !isLineTerminator c else p0 == c) && reMatch ps s') := by
  have e : reMatch (p0 :: ps) (c :: s') =
      (if p0 = '*' then
        (reMatchF ((p0 :: ps).length + (c :: s').length) ps (c :: s') ||
          (!isLineTerminator c &&
            reMatchF ((p0 :: ps).length + (c :: s').length) (p0 :: ps) s'))
      else
        ((if p0 = '.' then !isLineTerminator c else p0 == c) &&
          reMatchF ((p0 :: ps).length + (c :: s').length) ps s')) := rfl
  rw [e, if_neg hp, ← reMatch_eq_reMatchF _ ps s'
    (by simp only [List.length_cons]; omega)]
/-- The executable matcher agrees with the declarative wildcard semantics. -/
theorem reMatch_iff_RMatch (p s : List Char) : reMatch p s = true ↔ RMatch p s := by
  generalize hn : p.length + s.length = n
  induction n using Nat.strong_induction_on generalizing p s with
  | _ n ih =>
    cases p with
    | nil =>
      rw [reMatch_nil_eq]
      constructor
      · intro hs
        rw [List.isEmpty_iff] at hs
        subst hs
        exact RMatch.nil
      · intro hm
        cases hm
        rfl
    | cons p0 ps =>
      by_cases hstar : p0 = '*'
      · subst hstar
        cases s with
        | nil =>
          rw [reMatch_star_nil]
          have hih := ih (ps.length + ([] : List Char).length)
            (by subst hn; simp only [List.length_cons, List.length_nil]; omega) ps [] rfl
          constructor
          · intro h
            exact RMatch.starEmpty (hih.mp h)
          · intro h
            cases h with
            | starEmpty h' => exact hih.mpr h'
        | cons c s' =>
          rw [reMatch_star_cons, Bool.or_eq_true, Bool.and_eq_true]
          have hih1 := ih (ps.length + (c :: s').length)
            (by subst hn; simp only [List.length_cons]; omega) ps (c :: s') rfl
          have hih2 := ih (('*' :: ps).length + s'.length)
            (by subst hn; simp only [List.length_cons]; omega) ('*' :: ps) s' rfl
          constructor
          · rintro (h | ⟨hc, h⟩)
            · exact RMatch.starEmpty (hih1.mp h)
            · rw [Bool.not_eq_true'] at hc
              exact RMatch.starCons hc (hih2.mp h)
          · intro h
            cases h with
            | starEmpty h' => exact Or.inl (hih1.mpr h')
            | starCons hc h' =>
              refine Or.inr ⟨?_, hih2.mpr h'⟩
              rw [Bool.not_eq_true', hc]
            | lit hp hpd hpc h' => exact absurd rfl hp
      · cases s with
        | nil =>
          rw [reMatch_lit_nil p0 ps hstar]
          constructor
          · intro h
            exact absurd h (by simp)
          · intro h
            cases h with
            | starEmpty h' => exact absurd rfl hstar
        | cons c s' =>
          rw [reMatch_lit_cons p0 ps s' c hstar, Bool.and_eq_true]
          have hih := ih (ps.length + s'.length)
            (by subst hn; simp only [List.length_cons]; omega) ps s' rfl
          by_cases hdot : p0 = '.'
          · subst hdot
            rw [if_pos rfl]
            constructor
            · rintro ⟨hc, h⟩
              rw [Bool.not_eq_true'] at hc
              exact RMatch.dot hc (hih.mp h)
            · intro h
              cases h with
              | dot hc h' =>
                refine ⟨?_, hih.mpr h'⟩
                rw [Bool.not_eq_true', hc]
              | lit hp hpd hpc h' => exact absurd rfl hpd
          · rw [if_neg hdot]
            constructor
            · rintro ⟨hc, h⟩
              rw [beq_iff_eq] at hc
              exact RMatch.lit hstar hdot hc (hih.mp h)
            · intro h
              cases h with
              | dot hc h' => exact absurd rfl hdot
              | lit hp hpd hpc h' =>
                refine ⟨?_, hih.mpr h'⟩
                rw [beq_iff_eq]
                exact hpc
              | starEmpty h' => exact absurd rfl hstar
              | starCons hc h' => exact absurd rfl hstar
/-- C4 counterexample: under the claim's semantics every non-`*` pattern
character matches only itself, so `*@example.com` must reject
`bob@examplezcom`; the code translates the entry to the regex
`^.*@example.com$` in which `.` matches any character, and accepts it.
Moreover, with an empty hostname the code never consults hostname patterns,
so the bare wildcard `*` grants nothing, while the claim's reading
(`isAllowed` true iff nick matches or hostname matches) would accept `*`
against the empty hostname. -/
theorem isUserAllowed_counterexample :
    isUserAllowed ['x'] c4Hostname (some ⟨some [c4Pattern]⟩) = true ∧
    specIsAllowed ['x'] c4Hostname [c4Pattern] = false ∧
    isUserAllowed ['x'] [] (some ⟨some [['*']]⟩) = false ∧
    specIsAllowed ['x'] [] [['*']] = true :=
  ⟨by rfl, by rfl, by rfl, by rfl⟩
/-- C4 (amended): `isUserAllowed` returns true for every input when the
allowlist is empty; for a non-empty allowlist it returns true iff the nick
equals some entry case-insensitively, or the hostname is nonempty and matches
some entry — where an entry containing `*` is interpreted as the regex
obtained by replacing each `*` with `.*` (so `*` matches any run of
non-line-terminator characters, `.` matches any single non-line-terminator
character, and — provided the entry contains no further regex
metacharacter — every other character matches only itself, anchored to the
full lowercased hostname), and an entry without `*` must equal the lowercased
hostname exactly. -/
theorem isUserAllowed_iff
    (nick hostname : List Char) (config : Option IrcSenderConfig)
    (hsafe : ∀ u ∈ usersOf config, ∀ c ∈ lowerL u, isRegexMeta c = false) :
    isUserAllowed nick hostname config = true ↔
      (usersOf config = [] ∨
        (∃ u ∈ usersOf config, lowerL u = lowerL nick) ∨
        (hostname ≠ [] ∧ ∃ u ∈ usersOf config,
          (('*' ∈ lowerL u) ∧ RMatch (lowerL u) (lowerL hostname)) ∨
          ('*' ∉ lowerL u ∧ lowerL hostname = lowerL u))) := by
  unfold isUserAllowed
  by_cases hU : (usersOf config).isEmpty
  · rw [if_pos hU]
    rw [List.isEmpty_iff] at hU
    simp [hU]
  · rw [if_neg hU]
    have hne : usersOf config ≠ [] := by
      intro h0
      exact hU (by simp [h0])
    by_cases hnick : (usersOf config).any (fun u => lowerL u == lowerL nick) = true
    · rw [if_pos hnick]
      simp only [List.any_eq_true, beq_iff_eq] at hnick
      exact iff_of_true rfl (Or.inr (Or.inl hnick))
    · rw [if_neg hnick]
      simp only [List.any_eq_true, beq_iff_eq] at hnick
      by_cases hhost : hostname = []
      · subst hhost
        simp only [List.isEmpty_nil, Bool.not_true, Bool.false_eq_true, if_false]
        refine iff_of_false (by simp) ?_
        rintro (h | h | ⟨hh, _⟩)
        · exact hne h
        · exact hnick h
        · exact hh rfl
      · have hcond : (!hostname.isEmpty) = true := by
          cases hostname with
          | nil => exact absurd rfl hhost
          | cons a l => rfl
        rw [if_pos hcond]
        rw [List.any_eq_true]
        constructor
        · rintro ⟨u, hu, hmatch⟩
          refine Or.inr (Or.inr ⟨hhost, ⟨u, hu, ?_⟩⟩)
          by_cases hc : (lowerL u).contains '*' = true
          · rw [if_pos hc] at hmatch
            exact Or.inl ⟨List.elem_iff.mp hc, (reMatch_iff_RMatch _ _).mp hmatch⟩
          · rw [if_neg hc] at hmatch
            refine Or.inr ⟨fun hmem => hc (List.elem_iff.mpr hmem), ?_⟩
            rwa [beq_iff_eq] at hmatch
        · rintro (h | h | ⟨_, u, hu, hcase⟩)
          · exact absurd h hne
          · exact absurd h hnick
          · refine ⟨u, hu, ?_⟩
            rcases hcase with ⟨hmem, hRM⟩ | ⟨hnmem, heq⟩
            · rw [if_pos (List.elem_iff.mpr hmem)]
              exact (reMatch_iff_RMatch _ _).mpr hRM
            · rw [if_neg (fun hc => hnmem (List.elem_iff.mp hc))]
              rwa [beq_iff_eq]
/-- C4 witness: the amended characterization applied at nick `bob`, hostname
`h`, allowlist `["bob"]`. -/
theorem isUserAllowed_iff_witness :
    isUserAllowed ['b', 'o', 'b'] ['h'] (some ⟨some [['b', 'o', 'b']]⟩) = true :=
  (isUserAllowed_iff ['b', 'o', 'b'] ['h'] (some ⟨some [['b', 'o', 'b']]⟩)
    (by decide)).mpr
    (Or.inr (Or.inl ⟨['b', 'o', 'b'], by decide, by decide⟩))
/-- C10: with an empty hostname and a non-empty allowlist, `isUserAllowed`
returns true exactly when some entry equals the nick case-insensitively;
hostname patterns (the bare `*` included) are never consulted. -/
theorem isUserAllowed_empty_hostname
    (nick : List Char) (config : Option IrcSenderConfig)
    (h : usersOf config ≠ []) :
    isUserAllowed nick [] config = true ↔
      ∃ u ∈ usersOf config, lowerL u = lowerL nick := by
  unfold isUserAllowed
  have hU : (usersOf config).isEmpty = false := by
    cases hu : usersOf config with
    | nil => exact absurd hu h
    | cons a l => rfl
  rw [hU]
  simp only [Bool.false_eq_true, if_false]
  by_cases hnick : (usersOf config).any (fun u => lowerL u == lowerL nick) = true
  · rw [if_pos hnick]
    simp only [List.any_eq_true, beq_iff_eq] at hnick
    exact iff_of_true rfl hnick
  · rw [if_neg hnick]
    simp only [List.any_eq_true, beq_iff_eq] at hnick
    refine iff_of_false ?_ hnick
    simp
/-- C10 witness: nick `Bob` against allowlist `["bob"]` with empty hostname. -/
theorem isUserAllowed_empty_hostname_witness :
    isUserAllowed ['B', 'o', 'b'] [] (some ⟨some [['b', 'o', 'b']]⟩) = true :=
  (isUserAllowed_empty_hostname ['B', 'o', 'b'] (some ⟨some [['b', 'o', 'b']]⟩)
    (by decide)).mpr ⟨['b', 'o', 'b'], by decide, by decide⟩
/-- Every failure message of the account-lookup branches starts with
`IRC account "`, so it can never equal the not-configured message. -/
theorem accountMsg_ne_configNotFoundR (rest : String) :
    "IRC account \"" ++ rest ≠
      "IRC is not configured. Set channels.irc.server or channels.irc.accounts" := by
  intro h
  have hd := congrArg String.data h
  rw [String.data_append] at hd
  have h4 := congrArg (fun l => l.get? 4) hd
  simp only at h4
  have hlt : (4 : Nat) < ("IRC account \"").data.length := by decide
  rw [List.get?_append hlt] at h4
  have hL : ("IRC account \"").data.get? 4 = some 'a' := by decide
  have hR : ("IRC is not configured. Set channels.irc.server or channels.irc.accounts").data.get? 4 =
      some 'i' := by decide
  rw [hL, hR] at h4
  exact absurd h4 (by decide)
/-- C3 counterexample: for a config whose accounts map contains the requested
id `alice` with a server block but which has no top-level server block, the
`accounts.ts` `resolveIrcAccount` fails with the ConfigNotFound message — the
claim says resolution succeeds and that ConfigNotFound occurs exactly when no
IRC config exists at all.  (The `accounts-resolver.ts` variant does succeed on
the same input.) -/
theorem resolveIrcAccount_counterexample :
    resolveIrcAccount c3Cfg (some "alice") =
      .error "IRC is not configured. Set channels.irc.server" ∧
    resolveIrcAccountR c3Cfg (some "alice") =
      .ok ⟨"alice", .inl c3Entry, c3Server⟩ :=
  ⟨rfl, rfl⟩
/-- C3 (amended): the `accounts-resolver.ts` `resolveIrcAccount` satisfies the
claim — it fails with ConfigNotFound exactly when no IRC config exists at all
(no `channels.irc`, or neither a server block nor an accounts map); for every
config whose accounts map contains the requested (canonical) id with a server
block it succeeds and returns that entry even without a top-level server
block; and an explicit id with no matching entry fails with an error naming
the id and listing the available ids.  The `accounts.ts` variant instead
requires a top-level server block: whenever `channels.irc.server` is absent it
fails with ConfigNotFound even if a matching accounts entry exists. -/
theorem resolveIrcAccount_spec :
    (∀ (cfg : OpenClawCfg) (input : Option String),
      resolveIrcAccountR cfg input =
          .error "IRC is not configured. Set channels.irc.server or channels.irc.accounts" ↔
        (cfg.irc = none ∨
          ∃ ircCfg, cfg.irc = some ircCfg ∧ ircCfg.server = none ∧
            ircCfg.accounts = none)) ∧
    (∀ (cfg : OpenClawCfg) (ircCfg : IrcTopConfig)
        (accs : List (String × IrcAccountEntry)) (id : String)
        (entry : IrcAccountEntry) (server : IrcServerBlock),
      cfg.irc = some ircCfg → ircCfg.accounts = some accs →
      normalizeAccountId id = some id →
      lookupAccount accs id = some entry → entry.server = some server →
      resolveIrcAccountR cfg (some id) = .ok ⟨id, .inl entry, server⟩) ∧
    (∀ (cfg : OpenClawCfg) (ircCfg : IrcTopConfig)
        (accs : List (String × IrcAccountEntry)) (id : String),
      cfg.irc = some ircCfg → ircCfg.accounts = some accs →
      normalizeAccountId id = some id →
      lookupAccount accs id = none →
      resolveIrcAccountR cfg (some id) =
        .error ("IRC account \"" ++ id ++ "\" not found. Available: " ++
          String.intercalate ", " (accs.map (fun p => p.1)))) ∧
    (∀ (cfg : OpenClawCfg) (ircCfg : IrcTopConfig) (input : Option String),
      cfg.irc = some ircCfg → ircCfg.server = none →
      resolveIrcAccount cfg input =
        .error "IRC is not configured. Set channels.irc.server") := by
  refine ⟨?_, ?_, ?_, ?_⟩
  · intro cfg input
    constructor
    · intro h
      cases hcfg : cfg.irc with
      | none => exact Or.inl rfl
      | some ircCfg =>
        refine Or.inr ⟨ircCfg, rfl, ?_⟩
        rw [resolveIrcAccountR.eq_def, hcfg] at h
        simp only at h
        by_cases hg : ircCfg.server = none ∧ ircCfg.accounts = none
        · exact hg
        · exfalso
          rw [if_neg hg] at h
          cases hacc : ircCfg.accounts with
          | some accs =>
            rw [hacc] at h
            simp only at h
            split at h
            · simp only [Except.error.injEq] at h
              exact accountMsg_ne_configNotFoundR _ h
            · split at h
              · simp only [Except.error.injEq] at h
                exact accountMsg_ne_configNotFoundR _ h
              · exact Except.noConfusion h
          | none =>
            rw [hacc] at h
            simp only at h
            split at h
            · simp only [Except.error.injEq] at h
              exact accountMsg_ne_configNotFoundR _ h
            · cases hserv : ircCfg.server with
              | some server =>
                rw [hserv] at h
                exact Except.noConfusion h
              | none => exact hg ⟨hserv, hacc⟩
    · intro h
      rcases h with h | ⟨ircCfg, hcfg, hs, ha⟩
      · rw [resolveIrcAccountR.eq_def, h]
      · rw [resolveIrcAccountR.eq_def, hcfg]
        simp only
        rw [if_pos ⟨hs, ha⟩]
  · intro cfg ircCfg accs id entry server hcfg hacc hnorm hlook hserv
    have hid : id ≠ "" := by
      intro he
      subst he
      rw [show normalizeAccountId "" = none from rfl] at hnorm
      exact Option.noConfusion hnorm
    rw [resolveIrcAccountR.eq_def, hcfg]
    simp [hacc, hnorm, hid, hlook, hserv]
  · intro cfg ircCfg accs id hcfg hacc hnorm hlook
    have hid : id ≠ "" := by
      intro he
      subst he
      rw [show normalizeAccountId "" = none from rfl] at hnorm
      exact Option.noConfusion hnorm
    rw [resolveIrcAccountR.eq_def, hcfg]
    simp [hacc, hnorm, hid, hlook]
  · intro cfg ircCfg input hcfg hs
    rw [resolveIrcAccount.eq_def, hcfg]
    simp [hs]
/-- C3 witness: the amended success clause applied at the concrete config
`c3Cfg` and id `alice`. -/
theorem resolveIrcAccount_spec_witness :
    resolveIrcAccountR c3Cfg (some "alice") =
      .ok ⟨"alice", .inl c3Entry, c3Server⟩ :=
  resolveIrcAccount_spec.2.1 c3Cfg
    { enabled := none, server := none, accounts := some [("alice", c3Entry)] }
    [("alice", c3Entry)] "alice" c3Entry c3Server rfl rfl (by rfl) (by rfl) rfl
theorem ircKeyShapeTest_head_ne {c : Char} (t : List Char) (h : c ≠ 'i') :
    ircKeyShapeTest (c :: t) = false := by
  unfold ircKeyShapeTest
  have h1 : ((c :: t).take 4 == ircKeyLead) = false := by
    rw [beq_eq_false_iff_ne]
    intro he
    rw [List.take_succ_cons] at he
    rw [ircKeyLead] at he
    exact h (List.head_eq_of_cons_eq he)
  rw [h1]
  exact Bool.false_and _
theorem nickChar_ne_colon {c : Char} (h : isIrcNickRest c = true) : c ≠ ':' := by
  intro he
  subst he
  exact absurd h (by decide)
theorem nickChar_ne_space {c : Char} (h : isIrcNickRest c = true) : c ≠ ' ' := by
  intro he
  subst he
  exact absurd h (by decide)
theorem ircKeyShapeTest_of_nick {c : Char} {rest : List Char}
    (hs : isIrcNickStart c = true) (hr : ∀ x ∈ rest, isIrcNickRest x = true) :
    ircKeyShapeTest (c :: rest) = false := by
  have h4 : ((c :: rest).take 4 == ircKeyLead) = false := by
    rw [beq_eq_false_iff_ne]
    intro he
    rcases rest with _ | ⟨x1, _ | ⟨x2, _ | ⟨x3, rest3⟩⟩⟩ <;>
      simp only [List.take, ircKeyLead] at he
    · exact absurd he (by simp)
    · exact absurd he (by simp)
    · exact absurd he (by simp)
    · have hx3 : isIrcNickRest x3 = true := hr x3 (by simp)
      have h3 : x3 = ':' := by
        have := congrArg (fun l => l.get? 3) he
        simpa using this
      rw [h3] at hx3
      exact absurd hx3 (by decide)
  unfold ircKeyShapeTest
  rw [h4]
  exact Bool.false_and _
theorem nickRegexTest_space {l : List Char} (h : ' ' ∈ l) : nickRegexTest l = false := by
  cases l with
  | nil => rfl
  | cons c rest =>
    show (isIrcNickStart c && rest.all isIrcNickRest) = false
    rcases List.mem_cons.mp h with rfl | hm
    · rfl
    · by_cases hs : isIrcNickStart c = true
      · rw [hs, Bool.true_and]
        rw [List.all_eq_false]
        exact ⟨' ', hm, by decide⟩
      · rw [Bool.not_eq_true] at hs
        rw [hs]
        exact Bool.false_and _
/-- C6 counterexample: an uppercase-prefixed key `IRC:Alice:#chan` is NOT
accepted (the prefix test `/^irc:[^:]+:.+/` is case-sensitive), while the
claim says prefixed keys are accepted case-insensitively; and the input
`#a b`, which contains whitespace, IS accepted as a channel, while the claim
says every input containing whitespace is rejected. -/
theorem normalizeIrcMessagingTarget_counterexample :
    normalizeIrcMessagingTarget ("IRC:Alice:#chan".data) = none ∧
    normalizeIrcMessagingTarget ("#a b".data) = some ("irc:default:#a b".data) :=
  ⟨by rfl, by rfl⟩
/-- C6 (amended): `normalizeIrcMessagingTarget` trims its input and then:
rejects an input that is empty after trimming; accepts a case-SENSITIVELY
`irc:`-prefixed input of shape `irc:<nonempty colon-free>:<non-line-terminator>…`,
returning it lowercased; accepts any input starting with `#` (whitespace
inside included) as a channel target key; accepts an input matching the IRC
nick grammar (which admits no whitespace, no `:` and no `#`) as a DM target
key; and rejects everything else — in particular a whitespace-containing
input that is not `#`-led and not `irc:`-shaped. -/
theorem normalizeIrcMessagingTarget_spec (raw : List Char) :
    (trimL raw = [] → normalizeIrcMessagingTarget raw = none) ∧
    (∀ a c rest2, trimL raw = ircKeyLead ++ a ++ ':' :: c :: rest2 → a ≠ [] →
      (':' ∉ a) → isLineTerminator c = false →
      normalizeIrcMessagingTarget raw = some (lowerL (trimL raw))) ∧
    (∀ t, trimL raw = '#' :: t →
      normalizeIrcMessagingTarget raw = some (buildIrcTargetKey none (trimL raw))) ∧
    (∀ c rest, trimL raw = c :: rest → isIrcNickStart c = true →
      (∀ x ∈ rest, isIrcNickRest x = true) →
      normalizeIrcMessagingTarget raw = some (buildIrcTargetKey none (trimL raw))) ∧
    (ircKeyShapeTest (trimL raw) = false → (trimL raw).head? ≠ some '#' →
      nickRegexTest (trimL raw) = false →
      normalizeIrcMessagingTarget raw = none) ∧
    (' ' ∈ trimL raw → ircKeyShapeTest (trimL raw) = false →
      (trimL raw).head? ≠ some '#' →
      normalizeIrcMessagingTarget raw = none) := by
  refine ⟨?_, ?_, ?_, ?_, ?_, ?_⟩
  · intro h
    simp only [normalizeIrcMessagingTarget]
    rw [h]
    rfl
  · intro a c rest2 heq hane hcolon hterm
    have hne : ∀ x ∈ a, ((x != ':') = true) := by
      intro x hx
      rw [bne_iff_ne]
      intro hxe
      exact hcolon (hxe ▸ hx)
    have hshape : ircKeyShapeTest (trimL raw) = true := by
      rw [heq]
      unfold ircKeyShapeTest
      have h1 : ((ircKeyLead ++ a ++ ':' :: c :: rest2).take 4 == ircKeyLead) = true := by
        rw [beq_iff_eq, List.append_assoc]
        exact List.take_left' rfl
      have h2 : (ircKeyLead ++ a ++ ':' :: c :: rest2).drop 4 = a ++ ':' :: c :: rest2 := by
        rw [List.append_assoc]
        exact List.drop_left' rfl
      rw [h1, Bool.true_and]
      simp only [h2]
      rw [takeWhile_append_cons _ a ':' (c :: rest2) hne (by decide)]
      rw [List.drop_left a (':' :: c :: rest2)]
      have h5 : a.isEmpty = false := by
        cases a with
        | nil => exact absurd rfl hane
        | cons y ys => rfl
      rw [h5]
      simp only [Bool.not_false, Bool.true_and, hterm, Bool.not_false]
    simp only [normalizeIrcMessagingTarget]
    have hnonempty : (trimL raw).isEmpty = false := by
      rw [heq]
      rfl
    rw [hnonempty, hshape]
    simp only [Bool.false_eq_true, if_false, if_true]
  · intro t heq
    simp only [normalizeIrcMessagingTarget]
    have hnonempty : (trimL raw).isEmpty = false := by
      rw [heq]
      rfl
    have hshape : ircKeyShapeTest (trimL raw) = false := by
      rw [heq]
      exact ircKeyShapeTest_head_ne t (by decide)
    have hhead : (trimL raw).head? = some '#' := by
      rw [heq]
      rfl
    rw [hnonempty, hshape, hhead]
    simp only [Bool.false_eq_true, if_false, if_true]
  · intro c rest heq hs hr
    have hshape : ircKeyShapeTest (trimL raw) = false := by
      rw [heq]
      exact ircKeyShapeTest_of_nick hs hr
    have hc : c ≠ '#' := by
      intro he
      subst he
      exact absurd hs (by decide)
    have hhead : (trimL raw).head? ≠ some '#' := by
      rw [heq]
      intro he
      exact hc (Option.some.inj he)
    have hnick : nickRegexTest (trimL raw) = true := by
      rw [heq]
      show (isIrcNickStart c && rest.all isIrcNickRest) = true
      rw [hs, Bool.true_and, List.all_eq_true]
      exact hr
    have hnonempty : (trimL raw).isEmpty = false := by
      rw [heq]
      rfl
    simp only [normalizeIrcMessagingTarget]
    rw [hnonempty, hshape, if_neg hhead, hnick]
    simp only [Bool.false_eq_true, if_false, if_true]
  · intro hshape hhead hnick
    simp only [normalizeIrcMessagingTarget]
    cases htr : trimL raw with
    | nil => rfl
    | cons c rest =>
      rw [htr] at hshape hhead hnick
      rw [hshape, if_neg hhead, hnick]
      simp only [List.isEmpty_cons, Bool.false_eq_true, if_false]
  · intro hsp hshape hhead
    cases htr : trimL raw with
    | nil =>
      simp only [normalizeIrcMessagingTarget]
      rw [htr]
      rfl
    | cons c rest =>
      have hnick : nickRegexTest (trimL raw) = false :=
        nickRegexTest_space hsp
      simp only [normalizeIrcMessagingTarget]
      rw [htr] at hshape hhead hnick ⊢
      rw [hshape, if_neg hhead, hnick]
      simp only [List.isEmpty_cons, Bool.false_eq_true, if_false]
/-- C6 witness: the channel clause applied at raw input `#chan`, and the
prefixed clause applied at `irc:default:bob`. -/
theorem normalizeIrcMessagingTarget_spec_witness :
    normalizeIrcMessagingTarget ("#chan".data) =
      some (buildIrcTargetKey none (trimL ("#chan".data))) ∧
    normalizeIrcMessagingTarget ("irc:default:bob".data) =
      some (lowerL (trimL ("irc:default:bob".data))) :=
  ⟨(normalizeIrcMessagingTarget_spec ("#chan".data)).2.2.1
      ("chan".data) (by rfl),
    (normalizeIrcMessagingTarget_spec ("irc:default:bob".data)).2.1
      ("default".data) 'b' ("ob".data) (by rfl) (by decide) (by decide) (by decide)⟩
/-- C7 (code evaluation at the failing input, and at every input): `probeIrc`
returns normally with `ok := false` and a populated error — but the error is
the null-access `TypeError` from reading `.client` before `connect()`, never
a timeout message, and the cleanup/quit path runs zero times, not once.
`timeoutMs` is irrelevant: the rejection precedes the race. -/
theorem probeIrc_always_null_error (serverConfig : IrcServerBlock) (timeoutMs : Nat) :
    probeIrc serverConfig timeoutMs =
      ({ ok := false, connected := none,
         error := some "Cannot read properties of null (reading 'on')",
         host := serverConfig.host.getD "localhost",
         port := serverConfig.port.getD 6697,
         nick := serverConfig.nick.getD "probe" }, 0) := rfl
/-- C9: immediately after `connect()` resolves on a fresh client,
`isConnected()` is true while `isRegistered()` is still false (the
`registered` event has not fired), and since the send path's only
precondition check is `isConnected()`, every `say`/`notice`/`action` send
through `sendMessageIrc` is permitted in that window. -/
theorem connect_window_allows_send (target text : List Char) (opts : SendOpts) :
    ∃ s', createIrcClient.connect = .ok s' ∧
      s'.isConnected = true ∧ s'.isRegistered = false ∧
      ∃ calls, sendMessageIrc s'.isConnected target text opts = .ok calls := by
  refine ⟨{ client := some (), connected := true, registered := false }, rfl, rfl, rfl, ?_⟩
  exact ⟨_, rfl⟩
/-- C8 counterexample: with the `stopped` flag already set, a late
`registered` event still logs and auto-joins, a late `error` event still
logs, and a late `close` event still forwards to the external handler — the
claim that every late-arriving event of any kind is dropped with no side
effect is false. -/
theorem monitor_late_events_counterexample :
    onRegisteredEffects true "irc.libera.chat" (some 6697) "bot"
        [("main", { channels := some [("general", { enabled := none })] })]
        (fun _ => false) =
      [MonitorEffect.logLine "[irc] Connected to irc.libera.chat:6697 as bot",
       MonitorEffect.joinChannel "#general"] ∧
    onErrorEffects true "boom" (fun _ => false) =
      [MonitorEffect.errorLine "[irc] Error: boom"] ∧
    onCloseEffects true (fun _ => true) = [MonitorEffect.externalHandler "close"] :=
  ⟨by decide, by rfl, by rfl⟩
/-- C8 (amended): `stop()` is idempotent (a second stop changes nothing and
issues no further `quit`), and it sets the internal `stopped` flag — but only
the `message` and `notice` handlers consult that flag (late such events are
dropped); the `registered` handler behaves identically whether stopped or
not (still logging and auto-joining), the `error` handler likewise, and the
`close` handler still forwards to the external handler, suppressing only its
own reconnect log line. -/
theorem monitor_stop_flag_behavior :
    (∀ st : MonitorState, monitorStop (monitorStop st).1 = ((monitorStop st).1, 0)) ∧
    (∀ st : MonitorState, (monitorStop st).1.stopped = true) ∧
    (∀ nick message ext, onMessageEffects true nick message ext = []) ∧
    (∀ nick message ext, onNoticeEffects true nick message ext = []) ∧
    (∀ host port nick networks ext,
      onRegisteredEffects true host port nick networks ext =
        onRegisteredEffects false host port nick networks ext) ∧
    (∀ errMsg ext, onErrorEffects true errMsg ext = onErrorEffects false errMsg ext) ∧
    (∀ ext, onCloseEffects true ext =
      (if ext "close" then [MonitorEffect.externalHandler "close"] else [])) := by
  refine ⟨?_, ?_, ?_, ?_, ?_, ?_, ?_⟩
  · intro st
    by_cases h : st.client.connected = false ∨ st.client.client = none
    · simp [monitorStop, IrcClientSt.disconnect, h]
    · simp [monitorStop, IrcClientSt.disconnect, h]
  · intro st
    unfold monitorStop
    rfl
  · intro nick message ext
    rfl
  · intro nick message ext
    rfl
  · intro host port nick networks ext
    rfl
  · intro errMsg ext
    rfl
  · intro ext
    rfl
end OpenClaw
